import Mathlib

/-!
# unbind-helper: the validation gate in front of a privileged sysfs write

A shallow embedding of `unbind-helper.c`.  A C string is represented by the
list of its bytes before the terminating NUL; a possibly-null `char *` is an
`Option` of such a list.  The library routines the program calls (`strlen`,
`strncmp`, `printf`) are given their C meaning on that representation, the
operating system (`canonicalize_file_name`, `open`, `write`, `close`) is an
arbitrary environment, and `main` returns its result together with the
sequence of calls it made, in program order.
-/

namespace UnbindHelper

/-- A C string: the bytes stored before the terminating NUL. -/
abbrev CStr := List Nat

/-- Well-formedness of a C string: every byte is a non-zero `char`. -/
def NulFree (s : CStr) : Prop := ∀ b ∈ s, b ≠ 0

instance (s : CStr) : Decidable (NulFree s) := by
  unfold NulFree; infer_instance

/-- The bytes of a string literal of the source (all literals are ASCII). -/
def lit (s : String) : CStr := s.toList.map Char.toNat

/-- Width of `size_t` on the LP64 targets the helper is built for. -/
def SIZE_BITS : Nat := 64

/-- Conversion of a signed integer to `size_t` (reduction modulo `2 ^ 64`). -/
def to_size_t (i : Int) : Nat := (i % (2 ^ SIZE_BITS : Nat)).toNat

/-- Value of `O_WRONLY` in `<fcntl.h>` on Linux. -/
def O_WRONLY : Int := 1

/-- The exit status a parent observes: the low eight bits of the value
returned by `main`. -/
def exit_status (r : Int) : Nat := (r % 256).toNat

/-- C `strlen`: the number of bytes before the terminator. -/
def strlen (s : CStr) : Nat := s.length

/-- C `strncmp`: compare at most `n` bytes, stopping after a NUL.  Reading at
the end of the list reads the terminator, byte `0`. -/
def strncmp : CStr → CStr → Nat → Int
  | _, _, 0 => 0
  | a, b, n + 1 =>
    let ca := a.headD 0
    let cb := b.headD 0
    if ca ≠ cb then (ca : Int) - (cb : Int)
    else if ca = 0 then 0
    else strncmp a.tail b.tail n

/-- Source `prefix`: `strncmp(pre, str, strlen(pre)) == 0`. -/
def prefix_ (pre str : CStr) : Bool :=
  strncmp pre str (strlen pre) == 0

/-- Source `suffix`: null arguments and a too-long `suf` give `false`;
otherwise the last `lensuf` bytes of `str` are compared with `suf`.  The
pointer `str + lenstr - lensuf` is the list with `lenstr - lensuf` bytes
dropped. -/
def suffix (suf str : Option CStr) : Bool :=
  match str, suf with
  | none, _ => false
  | _, none => false
  | some str, some suf =>
    let lenstr := strlen str
    let lensuf := strlen suf
    if lensuf > lenstr then false
    else strncmp (str.drop (lenstr - lensuf)) suf lensuf == 0

/-- Source `paths`: the allow-list of driver directories. -/
def paths : List CStr :=
  [ lit "/sys/bus/usb/drivers/uvcvideo",
    lit "/sys/bus/usb/drivers/cdc_acm",
    lit "/sys/bus/usb/drivers/usbtest" ]

/-- Rendering of `printf("%i", i)`: optional minus sign and the decimal digits. -/
def fmt_i : Int → CStr
  | Int.ofNat n => (Nat.toDigits 10 n).map Char.toNat
  | Int.negSucc n => lit "-" ++ (Nat.toDigits 10 (n + 1)).map Char.toNat

/-- A call made by `main`, with its evaluated arguments.  For `printf` the
argument is the formatted text that reaches standard output. -/
inductive Call where
  | printf (text : CStr)
  | canonicalize_file_name (path : CStr)
  | prefix_ (pre str : CStr)
  | suffix (suf str : CStr)
  | open_ (path : CStr) (flags : Int)
  | strlen (s : CStr)
  | write (fd : Int) (buf : CStr) (count : Nat)
  | close (fd : Int)
  deriving DecidableEq, Repr

/-- The operating system as seen by the helper: what each library or system
call returns for given arguments. -/
structure Env where
  /-- Result of `canonicalize_file_name`: `none` is the null pointer. -/
  canonicalize_file_name : CStr → Option CStr
  /-- Result of `open(path, flags)`: a descriptor or `-1`. -/
  open_ : CStr → Int → Int
  /-- Result of `write(fd, buf, count)`: a byte count or `-1`. -/
  write : Int → CStr → Nat → Int

/-- Result of a run of `main`: the returned value and the calls made. -/
structure Run where
  ret : Int
  calls : List Call
  deriving DecidableEq, Repr

/-- The first loop of `main`: scan the allow-list in order, stop at the first
entry that is a prefix of `ptr`.  Returns `found` and the calls made. -/
def scan (ptr : CStr) : List CStr → Bool × List Call
  | [] => (false, [])
  | p :: rest =>
    if prefix_ p ptr then (true, [Call.prefix_ p ptr])
    else ((scan ptr rest).1, Call.prefix_ p ptr :: (scan ptr rest).2)

/-- Source `main`.  `argv` holds `argv[0] .. argv[argc-1]`, so
`argc = argv.length`. -/
def main (env : Env) (argv : List CStr) : Run :=
  let argc : Int := argv.length
  if argc ≠ 3 then
    { ret := -1,
      calls := [Call.printf (lit "Must give 2 arguments not " ++ fmt_i (argc - 1) ++ lit "\n")] }
  else
    let arg1 := argv.getD 1 []
    let arg2 := argv.getD 2 []
    match env.canonicalize_file_name arg1 with
    | none =>
      { ret := -1,
        calls := [Call.canonicalize_file_name arg1,
                  Call.printf (lit "realpath failed on " ++ arg1 ++ lit "\n")] }
    | some ptr =>
      let c0 := [Call.canonicalize_file_name arg1] ++ (scan ptr paths).2
      if !(scan ptr paths).1 then
        { ret := -1,
          calls := c0 ++ [Call.printf (ptr ++ lit " should be under\n")]
                      ++ paths.map (fun p => Call.printf (lit "  " ++ p ++ lit "\n")) }
      else
        let c1 := c0 ++ [Call.suffix (lit "/unbind") ptr]
        if !(suffix (some (lit "/unbind")) (some ptr)) then
          { ret := -1,
            calls := c1 ++ [Call.printf (ptr ++ lit " should end in /unbind\n")] }
        else
          let f := env.open_ ptr O_WRONLY
          let w := to_size_t (env.write f arg2 (strlen arg2))
          let c2 := c1 ++ [Call.open_ ptr O_WRONLY, Call.strlen arg2,
                           Call.write f arg2 (strlen arg2), Call.close f,
                           Call.strlen arg2]
          if w ≠ strlen arg2 then
            { ret := -1, calls := c2 ++ [Call.printf (lit "Write to " ++ ptr ++ lit " failed\n")] }
          else
            { ret := 0, calls := c2 }

/-- Bytes written to standard output by a sequence of calls. -/
def output : List Call → CStr
  | [] => []
  | Call.printf text :: rest => text ++ output rest
  | _ :: rest => output rest

/-- Bytes written to standard output during a run. -/
def stdout (r : Run) : CStr := output r.calls

/-- The call is an `open`. -/
def Call.isOpen : Call → Bool
  | Call.open_ _ _ => true
  | _ => false

/-- The call is a `write`. -/
def Call.isWrite : Call → Bool
  | Call.write _ _ _ => true
  | _ => false

/-- The call touches the filesystem: path resolution, `open`, `write` or
`close`. -/
def Call.isFs : Call → Bool
  | Call.canonicalize_file_name _ => true
  | Call.open_ _ _ => true
  | Call.write _ _ _ => true
  | Call.close _ => true
  | _ => false

/-- The call runs one of the two validation checks. -/
def Call.isCheck : Call → Bool
  | Call.prefix_ _ _ => true
  | Call.suffix _ _ => true
  | _ => false

/-- Some allow-list entry is an initial segment of `P`. -/
def UnderAllowed (P : CStr) : Prop := ∃ D ∈ paths, D <+: P

/-- The path `P` ends with the bytes of `"/unbind"`. -/
def EndsInUnbind (P : CStr) : Prop := lit "/unbind" <:+ P

instance (P : CStr) : Decidable (UnderAllowed P) := by
  unfold UnderAllowed; infer_instance

instance (P : CStr) : Decidable (EndsInUnbind P) := by
  unfold EndsInUnbind; infer_instance

/-- The calls of the validation stage on a canonical path that passes the
prefix check: the loop's calls followed by the suffix test. -/
def check_calls (P : CStr) : List Call :=
  (scan P paths).2 ++ [Call.suffix (lit "/unbind") P]

/-- No `open` and no `write` among the calls of a run. -/
def NoOpenWrite (r : Run) : Prop := ∀ c ∈ r.calls, c.isOpen = false ∧ c.isWrite = false

instance (r : Run) : Decidable (NoOpenWrite r) := by
  unfold NoOpenWrite; infer_instance

/-- The gate condition: two user arguments, a resolved canonical path, an
allow-list entry as its initial segment and `"/unbind"` as its final segment. -/
def GateOpen (env : Env) (argv : List CStr) : Prop :=
  argv.length = 3 ∧ ∃ P, env.canonicalize_file_name (argv.getD 1 []) = some P ∧
    UnderAllowed P ∧ EndsInUnbind P

/-- An example environment: `/tmp/link` is a symbolic link to the `unbind`
attribute of `uvcvideo`, `/sys/bus/usb/drivers/uvcvideo/out` is a symbolic
link to `/etc/passwd`, `/nonexistent` does not resolve, every other path
resolves to itself; `open` returns descriptor 3 and `write` accepts the whole
buffer. -/
def env_ok : Env where
  canonicalize_file_name := fun p =>
    if p = lit "/tmp/link" then some (lit "/sys/bus/usb/drivers/uvcvideo/unbind")
    else if p = lit "/sys/bus/usb/drivers/uvcvideo/out" then some (lit "/etc/passwd")
    else if p = lit "/nonexistent" then none
    else some p
  open_ := fun _ _ => 3
  write := fun _ _ n => n

/-- An example environment that resolves every path to itself and in which
`open` fails and `write` on the invalid descriptor fails. -/
def env_fail : Env where
  canonicalize_file_name := fun p => some p
  open_ := fun _ _ => -1
  write := fun _ _ _ => -1

/-- The `unbind` attributes of the three allow-listed drivers. -/
def unbind_attrs : List CStr :=
  [ lit "/sys/bus/usb/drivers/uvcvideo/unbind",
    lit "/sys/bus/usb/drivers/cdc_acm/unbind",
    lit "/sys/bus/usb/drivers/usbtest/unbind" ]

/-- The call is a `close`. -/
def Call.isClose : Call → Bool
  | Call.close _ => true
  | _ => false

/-- The call acts on a file handle: `open`, `write` or `close`. -/
def Call.isFileOp : Call → Bool
  | Call.open_ _ _ => true
  | Call.write _ _ _ => true
  | Call.close _ => true
  | _ => false

/-- The path `P` lies inside the directory `D`: it starts with `D` followed
by a path separator. -/
def InDir (D P : CStr) : Prop := D ++ lit "/" <+: P

instance (D P : CStr) : Decidable (InDir D P) := by
  unfold InDir; infer_instance

/-- Number of byte positions `strncmp` examines, following the recursion of
`strncmp`: position `i` is examined when the first `i` bytes agreed, none of
them was the terminator and `i < n`. -/
def strncmp_reads : CStr → CStr → Nat → Nat
  | _, _, 0 => 0
  | a, b, n + 1 =>
    let ca := a.headD 0
    let cb := b.headD 0
    if ca ≠ cb then 1
    else if ca = 0 then 1
    else 1 + strncmp_reads a.tail b.tail n

/-- Pointer arithmetic `s + off` inside the object holding the string `s`:
defined for offsets from the first byte up to the terminator, undefined
(`none`) before the start or past the terminator. -/
def ptr_add (s : CStr) (off : Int) : Option CStr :=
  if 0 ≤ off ∧ off ≤ (s.length : Int) then some (s.drop off.toNat) else none

/-- Source `suffix` with the pointer `str + lenstr - lensuf` computed by
`ptr_add` on the signed offset, so that an offset that leaves the string
makes the result undefined (`none`). -/
def suffix_checked (suf str : Option CStr) : Option Bool :=
  match str, suf with
  | none, _ => some false
  | _, none => some false
  | some str, some suf =>
    let lenstr := strlen str
    let lensuf := strlen suf
    if lensuf > lenstr then some false
    else (ptr_add str ((lenstr : Int) - (lensuf : Int))).map
      (fun p => strncmp p suf lensuf == 0)

/-! ## The library routines on well-formed strings -/

theorem strncmp_eq_zero_iff_left (pre : CStr) (hpre : NulFree pre) (str : CStr) :
    strncmp pre str pre.length = 0 ↔ pre <+: str := by
  induction pre generalizing str with
  | nil => simp [strncmp]
  | cons c cs ih =>
    have hc : c ≠ 0 := hpre c (List.mem_cons_self c cs)
    have hcs : NulFree cs := fun b hb => hpre b (List.mem_cons_of_mem c hb)
    cases str with
    | nil =>
      simp only [List.length_cons, strncmp, List.headD_cons, List.headD_nil]
      simp [hc]
    | cons d ds =>
      simp only [List.length_cons, strncmp, List.headD_cons, List.tail_cons]
      by_cases hcd : c = d
      · subst hcd
        simp [hc, ih hcs ds]
      · have : (c : Int) - (d : Int) ≠ 0 := by omega
        simp [hcd, this]

theorem strncmp_eq_zero_iff_right (suf : CStr) (hsuf : NulFree suf) (str : CStr) :
    strncmp str suf suf.length = 0 ↔ suf <+: str := by
  induction suf generalizing str with
  | nil => simp [strncmp]
  | cons c cs ih =>
    have hc : c ≠ 0 := hsuf c (List.mem_cons_self c cs)
    have hcs : NulFree cs := fun b hb => hsuf b (List.mem_cons_of_mem c hb)
    cases str with
    | nil =>
      simp only [List.length_cons, strncmp, List.headD_cons, List.headD_nil]
      have : (0 : Int) - (c : Int) ≠ 0 := by omega
      simp [hc, Ne.symm hc, this]
    | cons d ds =>
      simp only [List.length_cons, strncmp, List.headD_cons, List.tail_cons]
      by_cases hcd : d = c
      · subst hcd
        simp [hc, ih hcs ds]
      · have : (d : Int) - (c : Int) ≠ 0 := by omega
        simp [hcd, Ne.symm hcd, this]

theorem prefix_iff (pre : CStr) (hpre : NulFree pre) (str : CStr) :
    prefix_ pre str = true ↔ pre <+: str := by
  simp [prefix_, strlen, strncmp_eq_zero_iff_left pre hpre str]

theorem suffix_iff (suf : CStr) (hsuf : NulFree suf) (str : CStr) :
    suffix (some suf) (some str) = true ↔ suf <:+ str := by
  simp only [suffix, strlen]
  by_cases hlen : suf.length > str.length
  · simp only [hlen, if_true]
    constructor
    · intro h; cases h
    · intro h
      have := h.length_le
      omega
  · simp only [hlen, if_false, beq_iff_eq, strncmp_eq_zero_iff_right suf hsuf]
    have hle : suf.length ≤ str.length := by omega
    constructor
    · intro h
      have hl : (List.drop (str.length - suf.length) str).length = suf.length := by
        simp [List.length_drop]; omega
      have heq : suf = List.drop (str.length - suf.length) str :=
        h.eq_of_length hl.symm
      rw [heq]
      exact List.drop_suffix _ _
    · intro h
      obtain ⟨t, rfl⟩ := h
      simp

theorem paths_nulFree : ∀ D ∈ paths, NulFree D := by decide

theorem unbind_nulFree : NulFree (lit "/unbind") := by decide

theorem scan_found (ptr : CStr) (l : List CStr) :
    (scan ptr l).1 = true ↔ ∃ p ∈ l, prefix_ p ptr = true := by
  induction l with
  | nil => simp [scan]
  | cons p rest ih =>
    by_cases hp : prefix_ p ptr = true
    · simp [scan, hp]
    · simp [scan, hp, ih]

theorem scan_paths_iff (P : CStr) : (scan P paths).1 = true ↔ UnderAllowed P := by
  rw [scan_found]
  constructor
  · rintro ⟨D, hD, h⟩
    exact ⟨D, hD, (prefix_iff D (paths_nulFree D hD) P).1 h⟩
  · rintro ⟨D, hD, h⟩
    exact ⟨D, hD, (prefix_iff D (paths_nulFree D hD) P).2 h⟩

theorem suffix_unbind_iff (P : CStr) :
    suffix (some (lit "/unbind")) (some P) = true ↔ EndsInUnbind P :=
  suffix_iff _ unbind_nulFree P

theorem scan_calls_check (ptr : CStr) (l : List CStr) :
    ∀ c ∈ (scan ptr l).2, ∃ p, c = Call.prefix_ p ptr := by
  induction l with
  | nil => simp [scan]
  | cons p rest ih =>
    by_cases hp : prefix_ p ptr = true
    · simp [scan, hp]
    · intro c hc
      simp only [scan, hp, Bool.false_eq_true, if_false, List.mem_cons] at hc
      rcases hc with rfl | hc
      · exact ⟨p, rfl⟩
      · exact ih c hc

/-! ## The branches of `main` -/

theorem length_three (argv : List CStr) (h : argv.length = 3) :
    ∃ a0 a1 a2, argv = [a0, a1, a2] := by
  match argv, h with
  | [a0, a1, a2], _ => exact ⟨a0, a1, a2, rfl⟩

theorem main_usage (env : Env) (argv : List CStr) (h : argv.length ≠ 3) :
    main env argv =
      { ret := -1,
        calls := [Call.printf (lit "Must give 2 arguments not "
                    ++ fmt_i ((argv.length : Int) - 1) ++ lit "\n")] } := by
  have h3 : (argv.length : Int) ≠ 3 := by exact_mod_cast h
  simp [main, h3]

theorem main_null (env : Env) (a0 raw payload : CStr)
    (h : env.canonicalize_file_name raw = none) :
    main env [a0, raw, payload] =
      { ret := -1,
        calls := [Call.canonicalize_file_name raw,
                  Call.printf (lit "realpath failed on " ++ raw ++ lit "\n")] } := by
  simp [main, h]

theorem main_not_under (env : Env) (a0 raw payload P : CStr)
    (h : env.canonicalize_file_name raw = some P) (hs : (scan P paths).1 = false) :
    main env [a0, raw, payload] =
      { ret := -1,
        calls := [Call.canonicalize_file_name raw] ++ (scan P paths).2
                  ++ [Call.printf (P ++ lit " should be under\n")]
                  ++ paths.map (fun p => Call.printf (lit "  " ++ p ++ lit "\n")) } := by
  simp [main, h, hs]

theorem main_bad_suffix (env : Env) (a0 raw payload P : CStr)
    (h : env.canonicalize_file_name raw = some P) (hs : (scan P paths).1 = true)
    (hx : suffix (some (lit "/unbind")) (some P) = false) :
    main env [a0, raw, payload] =
      { ret := -1,
        calls := [Call.canonicalize_file_name raw] ++ check_calls P
                  ++ [Call.printf (P ++ lit " should end in /unbind\n")] } := by
  simp [main, h, hs, hx, check_calls]

theorem main_write (env : Env) (a0 raw payload P : CStr)
    (h : env.canonicalize_file_name raw = some P) (hs : (scan P paths).1 = true)
    (hx : suffix (some (lit "/unbind")) (some P) = true) :
    main env [a0, raw, payload] =
      if to_size_t (env.write (env.open_ P O_WRONLY) payload (strlen payload))
          ≠ strlen payload then
        { ret := -1,
          calls := [Call.canonicalize_file_name raw] ++ check_calls P
            ++ [Call.open_ P O_WRONLY, Call.strlen payload,
                Call.write (env.open_ P O_WRONLY) payload (strlen payload),
                Call.close (env.open_ P O_WRONLY), Call.strlen payload]
            ++ [Call.printf (lit "Write to " ++ P ++ lit " failed\n")] }
      else
        { ret := 0,
          calls := [Call.canonicalize_file_name raw] ++ check_calls P
            ++ [Call.open_ P O_WRONLY, Call.strlen payload,
                Call.write (env.open_ P O_WRONLY) payload (strlen payload),
                Call.close (env.open_ P O_WRONLY), Call.strlen payload] } := by
  simp [main, h, hs, hx, check_calls]

/-! ## Calls of the validation stage -/

theorem output_append (xs ys : List Call) : output (xs ++ ys) = output xs ++ output ys := by
  induction xs with
  | nil => rfl
  | cons c rest ih => cases c <;> simp [output, ih]

theorem scan_output (P : CStr) (l : List CStr) : output (scan P l).2 = [] := by
  induction l with
  | nil => rfl
  | cons p rest ih =>
    by_cases hp : prefix_ p P = true <;> simp [scan, hp, output, ih]

theorem check_calls_output (P : CStr) : output (check_calls P) = [] := by
  simp [check_calls, output_append, scan_output, output]

theorem check_calls_mem (P : CStr) :
    ∀ c ∈ check_calls P, (∃ p, c = Call.prefix_ p P) ∨ c = Call.suffix (lit "/unbind") P := by
  intro c hc
  simp only [check_calls, List.mem_append, List.mem_singleton] at hc
  rcases hc with hc | hc
  · exact Or.inl (scan_calls_check P paths c hc)
  · exact Or.inr hc

theorem scan_not_io (P : CStr) (l : List CStr) :
    ∀ c ∈ (scan P l).2, c.isOpen = false ∧ c.isWrite = false ∧ c.isFs = false := by
  intro c hc
  obtain ⟨p, rfl⟩ := scan_calls_check P l c hc
  exact ⟨rfl, rfl, rfl⟩

theorem check_calls_not_io (P : CStr) :
    ∀ c ∈ check_calls P, c.isOpen = false ∧ c.isWrite = false ∧ c.isFs = false := by
  intro c hc
  rcases check_calls_mem P c hc with ⟨p, rfl⟩ | rfl <;> exact ⟨rfl, rfl, rfl⟩

theorem filter_eq_nil_of_forall (f : Call → Bool) (l : List Call)
    (h : ∀ c ∈ l, f c = false) : l.filter f = [] := by
  rw [List.filter_eq_nil_iff]
  intro c hc
  simp [h c hc]

theorem check_calls_filter_open (P : CStr) : (check_calls P).filter Call.isOpen = [] :=
  filter_eq_nil_of_forall _ _ (fun c hc => (check_calls_not_io P c hc).1)

theorem check_calls_filter_write (P : CStr) : (check_calls P).filter Call.isWrite = [] :=
  filter_eq_nil_of_forall _ _ (fun c hc => (check_calls_not_io P c hc).2.1)

theorem bool_eq_false_of_not {b : Bool} (h : ¬ b = true) : b = false := by
  cases b <;> simp_all

theorem noOpenWrite_usage (env : Env) (argv : List CStr) (h : argv.length ≠ 3) :
    NoOpenWrite (main env argv) := by
  rw [main_usage env argv h]
  intro c hc
  simp only [List.mem_singleton] at hc
  subst hc
  exact ⟨rfl, rfl⟩

theorem noOpenWrite_null (env : Env) (a0 raw payload : CStr)
    (h : env.canonicalize_file_name raw = none) :
    NoOpenWrite (main env [a0, raw, payload]) := by
  rw [main_null env a0 raw payload h]
  intro c hc
  simp only [List.mem_cons, List.mem_singleton, List.not_mem_nil, or_false] at hc
  rcases hc with rfl | rfl <;> exact ⟨rfl, rfl⟩

theorem noOpenWrite_not_under (env : Env) (a0 raw payload P : CStr)
    (h : env.canonicalize_file_name raw = some P) (hs : (scan P paths).1 = false) :
    NoOpenWrite (main env [a0, raw, payload]) := by
  rw [main_not_under env a0 raw payload P h hs]
  intro c hc
  simp only [List.mem_append, List.mem_singleton, List.mem_map] at hc
  rcases hc with ((rfl | hc) | rfl) | ⟨p, _, rfl⟩
  · exact ⟨rfl, rfl⟩
  · exact ⟨(scan_not_io P paths c hc).1, (scan_not_io P paths c hc).2.1⟩
  · exact ⟨rfl, rfl⟩
  · exact ⟨rfl, rfl⟩

theorem noOpenWrite_bad_suffix (env : Env) (a0 raw payload P : CStr)
    (h : env.canonicalize_file_name raw = some P) (hs : (scan P paths).1 = true)
    (hx : suffix (some (lit "/unbind")) (some P) = false) :
    NoOpenWrite (main env [a0, raw, payload]) := by
  rw [main_bad_suffix env a0 raw payload P h hs hx]
  intro c hc
  simp only [List.mem_append, List.mem_singleton] at hc
  rcases hc with (rfl | hc) | rfl
  · exact ⟨rfl, rfl⟩
  · exact ⟨(check_calls_not_io P c hc).1, (check_calls_not_io P c hc).2.1⟩
  · exact ⟨rfl, rfl⟩

theorem open_mem_write (env : Env) (a0 raw payload P : CStr)
    (h : env.canonicalize_file_name raw = some P) (hs : (scan P paths).1 = true)
    (hx : suffix (some (lit "/unbind")) (some P) = true) :
    Call.open_ P O_WRONLY ∈ (main env [a0, raw, payload]).calls := by
  rw [main_write env a0 raw payload P h hs hx]
  split <;> simp

/-! ## The write gate of `main` -/

theorem gate_cases (env : Env) (argv : List CStr) :
    (∃ a0 raw payload P, argv = [a0, raw, payload] ∧
        env.canonicalize_file_name raw = some P ∧ (scan P paths).1 = true ∧
        suffix (some (lit "/unbind")) (some P) = true ∧ GateOpen env argv) ∨
    (¬ GateOpen env argv ∧ NoOpenWrite (main env argv) ∧ (main env argv).ret = -1) := by
  by_cases hlen : argv.length = 3
  · obtain ⟨a0, raw, payload, rfl⟩ := length_three argv hlen
    cases hc : env.canonicalize_file_name raw with
    | none =>
      refine Or.inr ⟨?_, noOpenWrite_null env a0 raw payload hc, ?_⟩
      · rintro ⟨_, P, hP, _⟩
        simp [hc] at hP
      · rw [main_null env a0 raw payload hc]
    | some P =>
      by_cases hs : (scan P paths).1 = true
      · by_cases hx : suffix (some (lit "/unbind")) (some P) = true
        · exact Or.inl ⟨a0, raw, payload, P, rfl, hc, hs, hx, hlen, P, by simpa using hc,
            (scan_paths_iff P).1 hs, (suffix_unbind_iff P).1 hx⟩
        · have hx2 := bool_eq_false_of_not hx
          refine Or.inr ⟨?_, noOpenWrite_bad_suffix env a0 raw payload P hc hs hx2, ?_⟩
          · rintro ⟨_, Q, hQ, _, hE⟩
            simp only [List.getD_cons_succ, List.getD_cons_zero, hc, Option.some.injEq] at hQ
            subst hQ
            exact hx ((suffix_unbind_iff P).2 hE)
          · rw [main_bad_suffix env a0 raw payload P hc hs hx2]
      · have hs2 := bool_eq_false_of_not hs
        refine Or.inr ⟨?_, noOpenWrite_not_under env a0 raw payload P hc hs2, ?_⟩
        · rintro ⟨_, Q, hQ, hU, _⟩
          simp only [List.getD_cons_succ, List.getD_cons_zero, hc, Option.some.injEq] at hQ
          subst hQ
          exact hs ((scan_paths_iff P).2 hU)
        · rw [main_not_under env a0 raw payload P hc hs2]
  · refine Or.inr ⟨fun h => hlen h.1, noOpenWrite_usage env argv hlen, ?_⟩
    rw [main_usage env argv hlen]

/-- C1 (fail-closed write gate): for every argument vector and every
environment, `main` issues an `open` or a `write` if and only if there are
exactly two user arguments, the canonicalizer returned a path, that path
starts with an allow-list entry and ends with "/unbind"; in every other run
no `open` and no `write` is among the calls. -/
theorem write_gate_fail_closed (env : Env) (argv : List CStr) :
    ((∃ c ∈ (main env argv).calls, c.isOpen = true ∨ c.isWrite = true) ↔
      (argv.length = 3 ∧ ∃ P, env.canonicalize_file_name (argv.getD 1 []) = some P ∧
        (∃ D ∈ paths, D <+: P) ∧ lit "/unbind" <:+ P)) ∧
    ((∀ c ∈ (main env argv).calls, c.isOpen = false ∧ c.isWrite = false) ∨
      (argv.length = 3 ∧ ∃ P, env.canonicalize_file_name (argv.getD 1 []) = some P ∧
        (∃ D ∈ paths, D <+: P) ∧ lit "/unbind" <:+ P)) := by
  rcases gate_cases env argv with ⟨a0, raw, payload, P, rfl, hc, hs, hx, hg⟩ | ⟨hng, hno, _⟩
  · refine ⟨⟨fun _ => hg, fun _ => ?_⟩, Or.inr hg⟩
    exact ⟨_, open_mem_write env a0 raw payload P hc hs hx, Or.inl rfl⟩
  · refine ⟨⟨?_, fun h => absurd h hng⟩, Or.inl hno⟩
    rintro ⟨c, hc, h⟩
    have := hno c hc
    rcases h with h | h <;> simp [this] at h

/-! ## Shape of the accepted paths -/

theorem no_overlap :
    ∀ D ∈ paths, ∀ k < 8, 0 < k → ¬ (lit "/unbind").take k <:+ D := by decide

theorem accepted_shape (P : CStr) (hU : UnderAllowed P) (hE : EndsInUnbind P) :
    ∃ D ∈ paths, ∃ M, P = D ++ M ++ lit "/unbind" := by
  obtain ⟨D, hD, t, rfl⟩ := hU
  obtain ⟨s, hs⟩ := hE
  rcases List.append_eq_append_iff.1 hs with ⟨a, hDa, hUa⟩ | ⟨c, hsc, htc⟩
  · -- the suffix would start inside `D`
    have hpre : a <+: lit "/unbind" := ⟨t, hUa.symm⟩
    have htake : a = (lit "/unbind").take a.length := List.prefix_iff_eq_take.1 hpre
    have hlen : a.length ≤ 7 := hpre.length_le
    by_cases ha : a.length = 0
    · have : a = [] := List.length_eq_zero.1 ha
      subst this
      refine ⟨D, hD, [], ?_⟩
      simp only [List.nil_append] at hUa
      simp [hUa]
    · exfalso
      have hsuf : a <:+ D := ⟨s, hDa.symm⟩
      rw [htake] at hsuf
      exact no_overlap D hD a.length (by omega) (by omega) hsuf
  · exact ⟨D, hD, c, by simp [htc]⟩

/-- C2 (counterexample): a canonical path in a subdirectory of an allow-listed
driver directory passes the allow-list loop and the suffix test of `main`,
yet it is none of the three `unbind` attributes. -/
theorem pinned_targets_counterexample :
    (scan (lit "/sys/bus/usb/drivers/usbtest/sub/unbind") paths).1 = true ∧
    suffix (some (lit "/unbind")) (some (lit "/sys/bus/usb/drivers/usbtest/sub/unbind")) = true ∧
    lit "/sys/bus/usb/drivers/usbtest/sub/unbind" ∉
      [ lit "/sys/bus/usb/drivers/uvcvideo/unbind",
        lit "/sys/bus/usb/drivers/cdc_acm/unbind",
        lit "/sys/bus/usb/drivers/usbtest/unbind" ] := by decide

/-- C2 (amended): every canonical path that passes the allow-list loop and the
suffix test of `main` is an allow-list entry, followed by some (possibly
empty) bytes, followed by "/unbind"; and each of the three `unbind`
attributes of the allow-listed drivers passes both checks. -/
theorem pinned_targets_shape (P : CStr)
    (hp : (scan P paths).1 = true)
    (hs : suffix (some (lit "/unbind")) (some P) = true) :
    (∃ D ∈ paths, ∃ M, P = D ++ M ++ lit "/unbind") ∧
    (∀ T ∈ unbind_attrs, (scan T paths).1 = true ∧
        suffix (some (lit "/unbind")) (some T) = true) :=
  ⟨accepted_shape P ((scan_paths_iff P).1 hp) ((suffix_unbind_iff P).1 hs), by decide⟩

/-- C2 (witness): the amended statement at the path of the counterexample. -/
theorem pinned_targets_shape_witness :
    (scan (lit "/sys/bus/usb/drivers/usbtest/sub/unbind") paths).1 = true ∧
    suffix (some (lit "/unbind")) (some (lit "/sys/bus/usb/drivers/usbtest/sub/unbind")) = true ∧
    ((∃ D ∈ paths, ∃ M,
        lit "/sys/bus/usb/drivers/usbtest/sub/unbind" = D ++ M ++ lit "/unbind") ∧
      (∀ T ∈ unbind_attrs, (scan T paths).1 = true ∧
        suffix (some (lit "/unbind")) (some T) = true)) :=
  ⟨by decide, by decide,
    pinned_targets_shape (lit "/sys/bus/usb/drivers/usbtest/sub/unbind") (by decide) (by decide)⟩

/-! ## Exit status -/

/-- C3 (exit-status characterisation): `main` returns `0` exactly when there
are two user arguments, canonicalization succeeded, the canonical path passed
the prefix and the suffix check and the value returned by `write`, converted
to `size_t`, equals `strlen(argv[2])`; every other run returns `-1`, which a
parent observes as the non-zero status 255. -/
theorem exit_status_characterisation (env : Env) (argv : List CStr) :
    ((main env argv).ret = 0 ↔
      (argv.length = 3 ∧ ∃ P, env.canonicalize_file_name (argv.getD 1 []) = some P ∧
        (∃ D ∈ paths, D <+: P) ∧ lit "/unbind" <:+ P ∧
        to_size_t (env.write (env.open_ P O_WRONLY) (argv.getD 2 [])
            (strlen (argv.getD 2 []))) = strlen (argv.getD 2 []))) ∧
    ((main env argv).ret = 0 ∨ (main env argv).ret = -1) ∧
    exit_status (-1) = 255 ∧ exit_status (-1) ≠ exit_status 0 := by
  refine ⟨?_, ?_, by decide, by decide⟩
  · rcases gate_cases env argv with ⟨a0, raw, payload, P, rfl, hc, hs, hx, hg⟩ | ⟨hng, _, hret⟩
    · rw [main_write env a0 raw payload P hc hs hx]
      constructor
      · intro h
        refine ⟨rfl, P, by simpa using hc, (scan_paths_iff P).1 hs,
          (suffix_unbind_iff P).1 hx, ?_⟩
        by_contra hw
        simp only [List.getD_cons_succ, List.getD_cons_zero] at hw
        rw [if_pos hw] at h
        simp at h
      · rintro ⟨_, Q, hQ, _, _, hw⟩
        simp only [List.getD_cons_succ, List.getD_cons_zero, hc, Option.some.injEq] at hQ hw
        subst hQ
        rw [if_neg (not_not.2 hw)]
    · constructor
      · intro h
        rw [hret] at h
        simp at h
      · rintro ⟨hl, Q, hQ, hU, hE, _⟩
        exact absurd ⟨hl, Q, hQ, hU, hE⟩ hng
  · rcases gate_cases env argv with ⟨a0, raw, payload, P, rfl, hc, hs, hx, _⟩ | ⟨_, _, hret⟩
    · rw [main_write env a0 raw payload P hc hs hx]
      split
      · exact Or.inr rfl
      · exact Or.inl rfl
    · exact Or.inr hret

/-! ## Validation sees only the canonical path -/

/-- C4 (validation depends only on the canonical form): two runs with two
user arguments whose first arguments canonicalize to the same path `P`, with
the same payload and the same `open` and `write` results, return the same
value, print the same output and make the same calls after the resolution
call, whatever the raw paths and environments were.  In particular a raw path
that resolves to an accepted path reaches the `open` of `P`, and a raw path
that resolves outside the allow-list is rejected without `open` or `write`. -/
theorem canonical_form_only (env1 env2 : Env) (a0 b0 raw1 raw2 payload P : CStr)
    (h1 : env1.canonicalize_file_name raw1 = some P)
    (h2 : env2.canonicalize_file_name raw2 = some P)
    (ho : env1.open_ P O_WRONLY = env2.open_ P O_WRONLY)
    (hw : env1.write (env1.open_ P O_WRONLY) payload (strlen payload)
        = env2.write (env2.open_ P O_WRONLY) payload (strlen payload)) :
    (main env1 [a0, raw1, payload]).ret = (main env2 [b0, raw2, payload]).ret ∧
    stdout (main env1 [a0, raw1, payload]) = stdout (main env2 [b0, raw2, payload]) ∧
    (main env1 [a0, raw1, payload]).calls.head? = some (Call.canonicalize_file_name raw1) ∧
    (main env2 [b0, raw2, payload]).calls.head? = some (Call.canonicalize_file_name raw2) ∧
    (main env1 [a0, raw1, payload]).calls.tail = (main env2 [b0, raw2, payload]).calls.tail ∧
    ((∃ D ∈ paths, D <+: P) → lit "/unbind" <:+ P →
      Call.open_ P O_WRONLY ∈ (main env1 [a0, raw1, payload]).calls) ∧
    (¬ (∃ D ∈ paths, D <+: P) →
      (main env1 [a0, raw1, payload]).ret = -1 ∧
      ∀ c ∈ (main env1 [a0, raw1, payload]).calls, c.isOpen = false ∧ c.isWrite = false) := by
  have hlast : ((∃ D ∈ paths, D <+: P) → lit "/unbind" <:+ P →
      Call.open_ P O_WRONLY ∈ (main env1 [a0, raw1, payload]).calls) ∧
    (¬ (∃ D ∈ paths, D <+: P) →
      (main env1 [a0, raw1, payload]).ret = -1 ∧
      ∀ c ∈ (main env1 [a0, raw1, payload]).calls, c.isOpen = false ∧ c.isWrite = false) := by
    constructor
    · intro hU hE
      exact open_mem_write env1 a0 raw1 payload P h1 ((scan_paths_iff P).2 hU)
        ((suffix_unbind_iff P).2 hE)
    · intro hU
      have hs : (scan P paths).1 = false :=
        bool_eq_false_of_not (fun h => hU ((scan_paths_iff P).1 h))
      refine ⟨?_, noOpenWrite_not_under env1 a0 raw1 payload P h1 hs⟩
      rw [main_not_under env1 a0 raw1 payload P h1 hs]
  by_cases hs : (scan P paths).1 = true
  · by_cases hx : suffix (some (lit "/unbind")) (some P) = true
    · rw [main_write env1 a0 raw1 payload P h1 hs hx,
        main_write env2 b0 raw2 payload P h2 hs hx, ← hw, ← ho]
      refine ⟨?_, ?_, ?_, ?_, ?_, ?_⟩
      · split <;> rfl
      · split <;> simp [stdout, output, output_append]
      · split <;> rfl
      · split <;> rfl
      · split <;> rfl
      · rw [← main_write env1 a0 raw1 payload P h1 hs hx]
        exact hlast
    · have hx2 := bool_eq_false_of_not hx
      rw [main_bad_suffix env1 a0 raw1 payload P h1 hs hx2,
        main_bad_suffix env2 b0 raw2 payload P h2 hs hx2]
      refine ⟨rfl, ?_, rfl, rfl, rfl, ?_⟩
      · simp [stdout, output, output_append]
      · rw [← main_bad_suffix env1 a0 raw1 payload P h1 hs hx2]
        exact hlast
  · have hs2 := bool_eq_false_of_not hs
    rw [main_not_under env1 a0 raw1 payload P h1 hs2,
      main_not_under env2 b0 raw2 payload P h2 hs2]
    refine ⟨rfl, ?_, rfl, rfl, rfl, ?_⟩
    · simp [stdout, output, output_append]
    · rw [← main_not_under env1 a0 raw1 payload P h1 hs2]
      exact hlast

/-- C4 (witness): in `env_ok` the symbolic link `/tmp/link` and the literal
path of the `unbind` attribute of `uvcvideo` resolve to the same canonical
path, and the two runs agree; the link `/sys/bus/usb/drivers/uvcvideo/out`,
literally under an allow-listed directory, resolves to `/etc/passwd` and is
rejected. -/
theorem canonical_form_only_witness :
    env_ok.canonicalize_file_name (lit "/tmp/link")
      = some (lit "/sys/bus/usb/drivers/uvcvideo/unbind") ∧
    env_ok.canonicalize_file_name (lit "/sys/bus/usb/drivers/uvcvideo/unbind")
      = some (lit "/sys/bus/usb/drivers/uvcvideo/unbind") ∧
    (main env_ok [lit "unbind-helper", lit "/tmp/link", lit "2-1.3"]).ret
      = (main env_ok [lit "./unbind-helper", lit "/sys/bus/usb/drivers/uvcvideo/unbind",
          lit "2-1.3"]).ret ∧
    stdout (main env_ok [lit "unbind-helper", lit "/tmp/link", lit "2-1.3"])
      = stdout (main env_ok [lit "./unbind-helper", lit "/sys/bus/usb/drivers/uvcvideo/unbind",
          lit "2-1.3"]) ∧
    (main env_ok [lit "unbind-helper", lit "/tmp/link", lit "2-1.3"]).calls.tail
      = (main env_ok [lit "./unbind-helper", lit "/sys/bus/usb/drivers/uvcvideo/unbind",
          lit "2-1.3"]).calls.tail ∧
    Call.open_ (lit "/sys/bus/usb/drivers/uvcvideo/unbind") O_WRONLY
      ∈ (main env_ok [lit "unbind-helper", lit "/tmp/link", lit "2-1.3"]).calls ∧
    env_ok.canonicalize_file_name (lit "/sys/bus/usb/drivers/uvcvideo/out")
      = some (lit "/etc/passwd") ∧
    (main env_ok [lit "unbind-helper", lit "/sys/bus/usb/drivers/uvcvideo/out",
      lit "2-1.3"]).ret = -1 ∧
    (∀ c ∈ (main env_ok [lit "unbind-helper", lit "/sys/bus/usb/drivers/uvcvideo/out",
      lit "2-1.3"]).calls, c.isOpen = false ∧ c.isWrite = false) :=
  have h := canonical_form_only env_ok env_ok (lit "unbind-helper") (lit "./unbind-helper")
    (lit "/tmp/link") (lit "/sys/bus/usb/drivers/uvcvideo/unbind") (lit "2-1.3")
    (lit "/sys/bus/usb/drivers/uvcvideo/unbind") (by decide) (by decide) rfl rfl
  have g := canonical_form_only env_ok env_ok (lit "unbind-helper") (lit "unbind-helper")
    (lit "/sys/bus/usb/drivers/uvcvideo/out") (lit "/etc/passwd") (lit "2-1.3")
    (lit "/etc/passwd") (by decide) (by decide) rfl rfl
  ⟨by decide, by decide, h.1, h.2.1, h.2.2.2.2.1, h.2.2.2.2.2.1 (by decide) (by decide),
    by decide, (g.2.2.2.2.2.2 (by decide)).1, (g.2.2.2.2.2.2 (by decide)).2⟩

/-! ## Rejections -/

theorem scan_all_fail (P : CStr) (l : List CStr) (h : ∀ p ∈ l, prefix_ p P = false) :
    scan P l = (false, l.map (fun p => Call.prefix_ p P)) := by
  induction l with
  | nil => rfl
  | cons p rest ih =>
    have hp : prefix_ p P = false := h p (List.mem_cons_self p rest)
    have hr := ih (fun q hq => h q (List.mem_cons_of_mem p hq))
    simp [scan, hp, hr]

theorem scan_not_under (P : CStr) (hn : ¬ UnderAllowed P) :
    scan P paths = (false, paths.map (fun p => Call.prefix_ p P)) := by
  apply scan_all_fail
  intro D hD
  apply bool_eq_false_of_not
  intro h
  exact hn ⟨D, hD, (prefix_iff D (paths_nulFree D hD) P).1 h⟩

/-- C5 (prefix rejection regardless of suffix): when the canonical path `P`
starts with none of the three allow-list strings, `main` returns `-1`, makes
no `open` and no `write`, and prints exactly "P should be under" followed by
one indented line per allow-list directory in allow-list order; the suffix
check is not run and the suffix diagnostic is not printed. -/
theorem prefix_rejection (env : Env) (a0 raw payload P : CStr)
    (hc : env.canonicalize_file_name raw = some P)
    (hn : ¬ ∃ D ∈ paths, D <+: P) :
    (main env [a0, raw, payload]).ret = -1 ∧
    (∀ c ∈ (main env [a0, raw, payload]).calls, c.isOpen = false ∧ c.isWrite = false) ∧
    stdout (main env [a0, raw, payload]) =
      P ++ lit " should be under\n" ++ lit "  /sys/bus/usb/drivers/uvcvideo\n"
        ++ lit "  /sys/bus/usb/drivers/cdc_acm\n" ++ lit "  /sys/bus/usb/drivers/usbtest\n" ∧
    (main env [a0, raw, payload]).calls =
      [ Call.canonicalize_file_name raw,
        Call.prefix_ (lit "/sys/bus/usb/drivers/uvcvideo") P,
        Call.prefix_ (lit "/sys/bus/usb/drivers/cdc_acm") P,
        Call.prefix_ (lit "/sys/bus/usb/drivers/usbtest") P,
        Call.printf (P ++ lit " should be under\n"),
        Call.printf (lit "  /sys/bus/usb/drivers/uvcvideo\n"),
        Call.printf (lit "  /sys/bus/usb/drivers/cdc_acm\n"),
        Call.printf (lit "  /sys/bus/usb/drivers/usbtest\n") ] ∧
    Call.suffix (lit "/unbind") P ∉ (main env [a0, raw, payload]).calls ∧
    Call.printf (P ++ lit " should end in /unbind\n") ∉ (main env [a0, raw, payload]).calls := by
  have hscan := scan_not_under P hn
  have hs : (scan P paths).1 = false := by rw [hscan]
  have hcalls : (main env [a0, raw, payload]).calls =
      [ Call.canonicalize_file_name raw,
        Call.prefix_ (lit "/sys/bus/usb/drivers/uvcvideo") P,
        Call.prefix_ (lit "/sys/bus/usb/drivers/cdc_acm") P,
        Call.prefix_ (lit "/sys/bus/usb/drivers/usbtest") P,
        Call.printf (P ++ lit " should be under\n"),
        Call.printf (lit "  /sys/bus/usb/drivers/uvcvideo\n"),
        Call.printf (lit "  /sys/bus/usb/drivers/cdc_acm\n"),
        Call.printf (lit "  /sys/bus/usb/drivers/usbtest\n") ] := by
    rw [main_not_under env a0 raw payload P hc hs, hscan]
    rfl
  refine ⟨?_, noOpenWrite_not_under env a0 raw payload P hc hs, ?_, hcalls, ?_, ?_⟩
  · rw [main_not_under env a0 raw payload P hc hs]
  · rw [stdout, hcalls]
    simp [output]
  · rw [hcalls]
    simp
  · rw [hcalls]
    intro hmem
    simp only [List.mem_cons, reduceCtorEq, false_or, Call.printf.injEq, List.mem_singleton,
      List.not_mem_nil, or_false] at hmem
    rcases hmem with h | h | h | h
    · exact absurd (List.append_cancel_left h) (by decide)
    · exact absurd (show lit " should end in /unbind\n" <:+ _ from ⟨P, h⟩) (by decide)
    · exact absurd (show lit " should end in /unbind\n" <:+ _ from ⟨P, h⟩) (by decide)
    · exact absurd (show lit " should end in /unbind\n" <:+ _ from ⟨P, h⟩) (by decide)

/-- C5 (witness): `/sys/bus/usb/drivers/evil/unbind` ends with "/unbind" but
is under no allow-listed directory. -/
theorem prefix_rejection_witness :
    lit "/unbind" <:+ lit "/sys/bus/usb/drivers/evil/unbind" ∧
    (main env_ok [lit "unbind-helper", lit "/sys/bus/usb/drivers/evil/unbind", lit "x"]).ret = -1 ∧
    stdout (main env_ok [lit "unbind-helper", lit "/sys/bus/usb/drivers/evil/unbind", lit "x"]) =
      lit ("/sys/bus/usb/drivers/evil/unbind should be under\n"
        ++ "  /sys/bus/usb/drivers/uvcvideo\n"
        ++ "  /sys/bus/usb/drivers/cdc_acm\n"
        ++ "  /sys/bus/usb/drivers/usbtest\n") :=
  have h := prefix_rejection env_ok (lit "unbind-helper")
    (lit "/sys/bus/usb/drivers/evil/unbind") (lit "x")
    (lit "/sys/bus/usb/drivers/evil/unbind") (by decide) (by decide)
  ⟨by decide, h.1, h.2.2.1⟩

/-- C6 (suffix rejection): when the canonical path `P` starts with an
allow-list string but does not end with the bytes "/unbind", `main` returns
`-1`, makes no `open` and no `write`, and prints exactly
"P should end in /unbind". -/
theorem suffix_rejection (env : Env) (a0 raw payload P : CStr)
    (hc : env.canonicalize_file_name raw = some P)
    (hU : ∃ D ∈ paths, D <+: P)
    (hE : ¬ lit "/unbind" <:+ P) :
    (main env [a0, raw, payload]).ret = -1 ∧
    (∀ c ∈ (main env [a0, raw, payload]).calls, c.isOpen = false ∧ c.isWrite = false) ∧
    stdout (main env [a0, raw, payload]) = P ++ lit " should end in /unbind\n" := by
  have hs : (scan P paths).1 = true := (scan_paths_iff P).2 hU
  have hx : suffix (some (lit "/unbind")) (some P) = false :=
    bool_eq_false_of_not (fun h => hE ((suffix_unbind_iff P).1 h))
  refine ⟨?_, noOpenWrite_bad_suffix env a0 raw payload P hc hs hx, ?_⟩
  · rw [main_bad_suffix env a0 raw payload P hc hs hx]
  · rw [stdout, main_bad_suffix env a0 raw payload P hc hs hx]
    simp [output, output_append, check_calls_output]

/-- C6 (witness): the `bind` attribute of `uvcvideo` with payload `x`. -/
theorem suffix_rejection_witness :
    (main env_ok [lit "unbind-helper", lit "/sys/bus/usb/drivers/uvcvideo/bind", lit "x"]).ret = -1 ∧
    (∀ c ∈ (main env_ok [lit "unbind-helper", lit "/sys/bus/usb/drivers/uvcvideo/bind",
        lit "x"]).calls, c.isOpen = false ∧ c.isWrite = false) ∧
    stdout (main env_ok [lit "unbind-helper", lit "/sys/bus/usb/drivers/uvcvideo/bind", lit "x"]) =
      lit "/sys/bus/usb/drivers/uvcvideo/bind should end in /unbind\n" :=
  suffix_rejection env_ok (lit "unbind-helper") (lit "/sys/bus/usb/drivers/uvcvideo/bind")
    (lit "x") (lit "/sys/bus/usb/drivers/uvcvideo/bind") (by decide) (by decide) (by decide)

/-- C7 (argument-count gate): when the number of user arguments is not 2,
`main` makes exactly one call, the `printf` of
"Must give 2 arguments not <argc-1>", and returns `-1`; no path is resolved
and no file is opened, written or closed. -/
theorem argument_count_gate (env : Env) (argv : List CStr) (h : argv.length ≠ 3) :
    (main env argv).ret = -1 ∧
    (main env argv).calls =
      [Call.printf (lit "Must give 2 arguments not " ++ fmt_i ((argv.length : Int) - 1)
        ++ lit "\n")] ∧
    stdout (main env argv) =
      lit "Must give 2 arguments not " ++ fmt_i ((argv.length : Int) - 1) ++ lit "\n" ∧
    (∀ c ∈ (main env argv).calls, c.isFs = false) := by
  rw [main_usage env argv h]
  refine ⟨rfl, rfl, ?_, ?_⟩
  · simp [stdout, output]
  · intro c hc
    simp only [List.mem_singleton] at hc
    subst hc
    rfl

/-- C7 (witness): a single user argument. -/
theorem argument_count_gate_witness :
    (main env_ok [lit "unbind-helper", lit "/sys/bus/usb/drivers/uvcvideo/unbind"]).ret = -1 ∧
    (main env_ok [lit "unbind-helper", lit "/sys/bus/usb/drivers/uvcvideo/unbind"]).calls =
      [Call.printf (lit "Must give 2 arguments not 1\n")] ∧
    stdout (main env_ok [lit "unbind-helper", lit "/sys/bus/usb/drivers/uvcvideo/unbind"]) =
      lit "Must give 2 arguments not 1\n" ∧
    (∀ c ∈ (main env_ok [lit "unbind-helper",
        lit "/sys/bus/usb/drivers/uvcvideo/unbind"]).calls, c.isFs = false) :=
  argument_count_gate env_ok [lit "unbind-helper", lit "/sys/bus/usb/drivers/uvcvideo/unbind"]
    (by decide)

/-- C8 (resolution failure): when `canonicalize_file_name` returns the null
pointer, `main` makes exactly two calls, the resolution and the `printf` of
"realpath failed on <argv[1]>", and returns `-1`; neither check is run and
nothing is opened or written. -/
theorem resolution_failure (env : Env) (a0 raw payload : CStr)
    (hc : env.canonicalize_file_name raw = none) :
    (main env [a0, raw, payload]).ret = -1 ∧
    (main env [a0, raw, payload]).calls =
      [ Call.canonicalize_file_name raw,
        Call.printf (lit "realpath failed on " ++ raw ++ lit "\n") ] ∧
    stdout (main env [a0, raw, payload]) = lit "realpath failed on " ++ raw ++ lit "\n" ∧
    (∀ c ∈ (main env [a0, raw, payload]).calls,
      c.isCheck = false ∧ c.isOpen = false ∧ c.isWrite = false) := by
  rw [main_null env a0 raw payload hc]
  refine ⟨rfl, rfl, ?_, ?_⟩
  · simp [stdout, output]
  · intro c hmem
    simp only [List.mem_cons, List.mem_singleton, List.not_mem_nil, or_false] at hmem
    rcases hmem with rfl | rfl <;> exact ⟨rfl, rfl, rfl⟩

/-- C8 (witness): `/nonexistent` does not resolve in `env_ok`. -/
theorem resolution_failure_witness :
    env_ok.canonicalize_file_name (lit "/nonexistent") = none ∧
    (main env_ok [lit "unbind-helper", lit "/nonexistent", lit "2-1.3"]).ret = -1 ∧
    (main env_ok [lit "unbind-helper", lit "/nonexistent", lit "2-1.3"]).calls =
      [ Call.canonicalize_file_name (lit "/nonexistent"),
        Call.printf (lit "realpath failed on /nonexistent\n") ] :=
  have h := resolution_failure env_ok (lit "unbind-helper") (lit "/nonexistent") (lit "2-1.3")
    (by decide)
  ⟨by decide, h.1, h.2.1⟩

/-! ## The writer -/

theorem to_size_t_neg_one : to_size_t (-1) = 2 ^ 64 - 1 := by decide

theorem to_size_t_ne_of_lt (w : Int) (n : Nat) (hn : n < 2 ^ 64 - 1)
    (h1 : -1 ≤ w) (h2 : w < (n : Int)) : to_size_t w ≠ n := by
  simp only [to_size_t, SIZE_BITS]
  norm_num at hn ⊢
  omega

/-- C9 (write failure is always detected): for a validated canonical path `P`
and a payload that is a C string of a 64-bit address space, if `open` fails
(and `write` on the invalid descriptor then returns `-1`), or `write` returns
`-1` or a count smaller than `strlen(argv[2])`, then `main` returns `-1` and
prints "Write to P failed".  The failure value `-1` becomes `2^64 - 1` in the
`size_t` variable `w`, which differs from the length of the payload and from
the length `0` of the empty payload. -/
theorem write_failure_detected (env : Env) (a0 raw payload P : CStr)
    (hc : env.canonicalize_file_name raw = some P)
    (hU : ∃ D ∈ paths, D <+: P)
    (hE : lit "/unbind" <:+ P)
    (hlen : strlen payload < 2 ^ 64 - 1)
    (hfail :
      (env.open_ P O_WRONLY = -1 ∧ env.write (-1) payload (strlen payload) = -1) ∨
      (-1 ≤ env.write (env.open_ P O_WRONLY) payload (strlen payload) ∧
        env.write (env.open_ P O_WRONLY) payload (strlen payload)
          < (strlen payload : Int))) :
    (main env [a0, raw, payload]).ret = -1 ∧
    stdout (main env [a0, raw, payload]) = lit "Write to " ++ P ++ lit " failed\n" ∧
    to_size_t (-1) = 2 ^ 64 - 1 ∧
    to_size_t (-1) ≠ strlen payload ∧
    to_size_t (-1) ≠ strlen [] := by
  have hs : (scan P paths).1 = true := (scan_paths_iff P).2 hU
  have hx : suffix (some (lit "/unbind")) (some P) = true := (suffix_unbind_iff P).2 hE
  have hneg : to_size_t (-1) ≠ strlen payload := by
    rw [to_size_t_neg_one]; omega
  have hw : to_size_t (env.write (env.open_ P O_WRONLY) payload (strlen payload))
      ≠ strlen payload := by
    rcases hfail with ⟨ho, hm⟩ | ⟨h1, h2⟩
    · rw [ho, hm]; exact hneg
    · exact to_size_t_ne_of_lt _ _ hlen h1 h2
  refine ⟨?_, ?_, to_size_t_neg_one, hneg, by decide⟩
  · rw [main_write env a0 raw payload P hc hs hx, if_pos hw]
  · rw [stdout, main_write env a0 raw payload P hc hs hx, if_pos hw]
    simp [output, output_append, check_calls_output]

/-- C9 (witness): `open` fails and the payload is empty. -/
theorem write_failure_detected_witness :
    env_fail.open_ (lit "/sys/bus/usb/drivers/cdc_acm/unbind") O_WRONLY = -1 ∧
    (main env_fail [lit "unbind-helper", lit "/sys/bus/usb/drivers/cdc_acm/unbind", []]).ret = -1 ∧
    stdout (main env_fail [lit "unbind-helper", lit "/sys/bus/usb/drivers/cdc_acm/unbind", []]) =
      lit "Write to /sys/bus/usb/drivers/cdc_acm/unbind failed\n" :=
  have h := write_failure_detected env_fail (lit "unbind-helper")
    (lit "/sys/bus/usb/drivers/cdc_acm/unbind") []
    (lit "/sys/bus/usb/drivers/cdc_acm/unbind") (by decide) (by decide) (by decide)
    (by decide) (Or.inl ⟨by decide, by decide⟩)
  ⟨by decide, h.1, h.2.1⟩

/-- C10 (write target and payload): in every run that issues an `open` or a
`write`, the canonicalizer returned a path `P`; the only `open` is
`open(P, O_WRONLY)`, with no other flag, so the raw `argv[1]` is not opened
when it differs from `P`; and the only `write` is on the value `open`
returned, with buffer `argv[2]` and count `strlen(argv[2])`. -/
theorem write_target_and_payload (env : Env) (argv : List CStr)
    (hreach : ∃ c ∈ (main env argv).calls, c.isOpen = true ∨ c.isWrite = true) :
    ∃ P, env.canonicalize_file_name (argv.getD 1 []) = some P ∧
      (main env argv).calls.filter Call.isOpen = [Call.open_ P O_WRONLY] ∧
      (main env argv).calls.filter Call.isWrite =
        [Call.write (env.open_ P O_WRONLY) (argv.getD 2 []) (strlen (argv.getD 2 []))] ∧
      (argv.getD 1 [] ≠ P →
        ∀ flags, Call.open_ (argv.getD 1 []) flags ∉ (main env argv).calls) := by
  rcases gate_cases env argv with ⟨a0, raw, payload, P, rfl, hc, hs, hx, _⟩ | ⟨_, hno, _⟩
  · have hopen : (main env [a0, raw, payload]).calls.filter Call.isOpen
        = [Call.open_ P O_WRONLY] := by
      rw [main_write env a0 raw payload P hc hs hx]
      split <;>
        simp [List.filter_append, check_calls_filter_open, List.filter, Call.isOpen]
    refine ⟨P, by simpa using hc, hopen, ?_, ?_⟩
    · rw [main_write env a0 raw payload P hc hs hx]
      split <;>
        simp [List.filter_append, check_calls_filter_write, List.filter, Call.isWrite]
    · intro hne flags hmem
      have hin : Call.open_ ([a0, raw, payload].getD 1 []) flags
          ∈ (main env [a0, raw, payload]).calls.filter Call.isOpen :=
        List.mem_filter.2 ⟨hmem, rfl⟩
      rw [hopen] at hin
      simp only [List.mem_singleton, Call.open_.injEq] at hin
      exact hne hin.1
  · exfalso
    obtain ⟨c, hc, h⟩ := hreach
    have := hno c hc
    rcases h with h | h <;> simp [this] at h

/-- C10 (witness): the `unbind` attribute of `uvcvideo` with payload `2-1.3`:
one `open` of the canonical path with `O_WRONLY` and one 5-byte `write` of
`2-1.3` on the returned descriptor. -/
theorem write_target_and_payload_witness :
    (∃ c ∈ (main env_ok [lit "unbind-helper", lit "/tmp/link", lit "2-1.3"]).calls,
      c.isOpen = true ∨ c.isWrite = true) ∧
    (main env_ok [lit "unbind-helper", lit "/tmp/link", lit "2-1.3"]).calls.filter Call.isOpen
      = [Call.open_ (lit "/sys/bus/usb/drivers/uvcvideo/unbind") 1] ∧
    (main env_ok [lit "unbind-helper", lit "/tmp/link", lit "2-1.3"]).calls.filter Call.isWrite
      = [Call.write 3 (lit "2-1.3") 5] := by
  have hreach : ∃ c ∈ (main env_ok [lit "unbind-helper", lit "/tmp/link", lit "2-1.3"]).calls,
      c.isOpen = true ∨ c.isWrite = true := by decide
  obtain ⟨P, hP, ho, hw, _⟩ :=
    write_target_and_payload env_ok [lit "unbind-helper", lit "/tmp/link", lit "2-1.3"] hreach
  have hPeq : P = lit "/sys/bus/usb/drivers/uvcvideo/unbind" := by
    have h2 : env_ok.canonicalize_file_name
        ([lit "unbind-helper", lit "/tmp/link", lit "2-1.3"].getD 1 [])
        = some (lit "/sys/bus/usb/drivers/uvcvideo/unbind") := by decide
    rw [h2] at hP
    exact (Option.some.inj hP).symm
  subst hPeq
  exact ⟨hreach, ho, hw⟩

/-! ## Looseness of the prefix test -/

/-- C11 (sibling-directory looseness): the prefix test asks for no path
separator after the directory name.  The entry for `uvcvideo` prefix-matches
`/sys/bus/usb/drivers/uvcvideo2`; the path
`/sys/bus/usb/drivers/uvcvideo2/unbind` lies inside none of the three
allow-listed directories, yet it passes the allow-list loop and the suffix
test, and every run whose first argument canonicalizes to it opens it for
writing and writes the payload. -/
theorem sibling_directory_accepted (env : Env) (a0 raw payload : CStr)
    (hc : env.canonicalize_file_name raw
      = some (lit "/sys/bus/usb/drivers/uvcvideo2/unbind")) :
    prefix_ (lit "/sys/bus/usb/drivers/uvcvideo") (lit "/sys/bus/usb/drivers/uvcvideo2") = true ∧
    (∀ D ∈ paths, ¬ InDir D (lit "/sys/bus/usb/drivers/uvcvideo2/unbind")) ∧
    (scan (lit "/sys/bus/usb/drivers/uvcvideo2/unbind") paths).1 = true ∧
    suffix (some (lit "/unbind")) (some (lit "/sys/bus/usb/drivers/uvcvideo2/unbind")) = true ∧
    Call.open_ (lit "/sys/bus/usb/drivers/uvcvideo2/unbind") O_WRONLY
      ∈ (main env [a0, raw, payload]).calls ∧
    Call.write (env.open_ (lit "/sys/bus/usb/drivers/uvcvideo2/unbind") O_WRONLY) payload
      (strlen payload) ∈ (main env [a0, raw, payload]).calls := by
  refine ⟨by decide, by decide, by decide, by decide, ?_, ?_⟩
  · exact open_mem_write env a0 raw payload _ hc (by decide) (by decide)
  · rw [main_write env a0 raw payload _ hc (by decide) (by decide)]
    split <;> simp

/-- C11 (witness): in `env_ok` the sibling path resolves to itself and the
payload `2-1.3` is written to it. -/
theorem sibling_directory_accepted_witness :
    env_ok.canonicalize_file_name (lit "/sys/bus/usb/drivers/uvcvideo2/unbind")
      = some (lit "/sys/bus/usb/drivers/uvcvideo2/unbind") ∧
    Call.open_ (lit "/sys/bus/usb/drivers/uvcvideo2/unbind") O_WRONLY
      ∈ (main env_ok [lit "unbind-helper", lit "/sys/bus/usb/drivers/uvcvideo2/unbind",
          lit "2-1.3"]).calls ∧
    Call.write 3 (lit "2-1.3") 5
      ∈ (main env_ok [lit "unbind-helper", lit "/sys/bus/usb/drivers/uvcvideo2/unbind",
          lit "2-1.3"]).calls ∧
    (main env_ok [lit "unbind-helper", lit "/sys/bus/usb/drivers/uvcvideo2/unbind",
      lit "2-1.3"]).ret = 0 :=
  have h := sibling_directory_accepted env_ok (lit "unbind-helper")
    (lit "/sys/bus/usb/drivers/uvcvideo2/unbind") (lit "2-1.3") (by decide)
  ⟨by decide, h.2.2.2.2.1, h.2.2.2.2.2, by decide⟩

/-! ## The two string tests -/

theorem strncmp_reads_le (pre : CStr) (hpre : NulFree pre) (str : CStr) :
    strncmp_reads pre str pre.length ≤ str.length + 1 := by
  induction pre generalizing str with
  | nil => simp [strncmp_reads]
  | cons c cs ih =>
    have hc : c ≠ 0 := hpre c (List.mem_cons_self c cs)
    have hcs : NulFree cs := fun b hb => hpre b (List.mem_cons_of_mem c hb)
    cases str with
    | nil =>
      simp only [List.length_cons, strncmp_reads, List.headD_cons, List.headD_nil]
      simp [hc]
    | cons d ds =>
      simp only [List.length_cons, strncmp_reads, List.headD_cons, List.tail_cons]
      by_cases hcd : c = d
      · subst hcd
        have := ih hcs ds
        simp only [ne_eq, not_true_eq_false, if_false, hc]
        omega
      · simp [hcd]

/-- C12 (`prefix` is an exact byte-prefix test): for C strings `pre` and
`str`, `prefix(pre, str)` holds exactly when the bytes of `pre` are an
initial segment of the bytes of `str`; it is false whenever `str` is shorter
than `pre`; the comparison examines no position after the terminator of
`str`; and the empty `pre` is a prefix of every string. -/
theorem prefix_exact (pre str : CStr) (hpre : NulFree pre) :
    (prefix_ pre str = true ↔ pre <+: str) ∧
    (prefix_ pre str = true ↔ str.take (strlen pre) = pre) ∧
    (strlen str < strlen pre → prefix_ pre str = false) ∧
    strncmp_reads pre str (strlen pre) ≤ strlen str + 1 ∧
    (∀ s : CStr, prefix_ [] s = true) := by
  have hiff := prefix_iff pre hpre str
  refine ⟨hiff, ?_, ?_, strncmp_reads_le pre hpre str, ?_⟩
  · rw [hiff, List.prefix_iff_eq_take, strlen]
    exact eq_comm
  · intro hlt
    apply bool_eq_false_of_not
    intro h
    have := (hiff.1 h).length_le
    simp only [strlen] at hlt
    omega
  · intro s
    simp [prefix_, strlen, strncmp]

/-- C12 (witness): the `uvcvideo` entry against the shorter string `/sys`
and against the `unbind` attribute below it. -/
theorem prefix_exact_witness :
    NulFree (lit "/sys/bus/usb/drivers/uvcvideo") ∧
    prefix_ (lit "/sys/bus/usb/drivers/uvcvideo") (lit "/sys") = false ∧
    strncmp_reads (lit "/sys/bus/usb/drivers/uvcvideo") (lit "/sys")
      (strlen (lit "/sys/bus/usb/drivers/uvcvideo")) ≤ 5 ∧
    (prefix_ (lit "/sys/bus/usb/drivers/uvcvideo") (lit "/sys/bus/usb/drivers/uvcvideo/unbind")
      = true ↔
      lit "/sys/bus/usb/drivers/uvcvideo" <+: lit "/sys/bus/usb/drivers/uvcvideo/unbind") :=
  have h := prefix_exact (lit "/sys/bus/usb/drivers/uvcvideo") (lit "/sys") (by decide)
  have g := prefix_exact (lit "/sys/bus/usb/drivers/uvcvideo")
    (lit "/sys/bus/usb/drivers/uvcvideo/unbind") (by decide)
  ⟨by decide, h.2.2.1 (by decide), h.2.2.2.1, g.1⟩

theorem suffix_checked_eq (suf str : Option CStr) :
    suffix_checked suf str = some (suffix suf str) := by
  cases str with
  | none => cases suf <;> rfl
  | some str =>
    cases suf with
    | none => rfl
    | some suf =>
      simp only [suffix_checked, suffix, strlen]
      by_cases hlen : suf.length > str.length
      · simp [hlen]
      · have h0 : (0 : Int) ≤ (str.length : Int) - (suf.length : Int) := by omega
        have h1 : (str.length : Int) - (suf.length : Int) ≤ (str.length : Int) := by omega
        have h2 : ((str.length : Int) - (suf.length : Int)).toNat = str.length - suf.length := by
          omega
        simp [hlen, ptr_add, h0, h2]

/-- C13 (`suffix` is an exact byte-suffix test): for C strings `suf` and
`str`, `suffix(suf, str)` holds exactly when the bytes of `suf` are a final
segment of the bytes of `str`; when `suf` is longer than `str` the result is
false; the pointer `str + lenstr - lensuf` is formed only with an offset
between the start of `str` and its terminator, so the version with checked
pointer arithmetic is always defined and agrees; and a null argument gives
false. -/
theorem suffix_exact (suf str : CStr) (hsuf : NulFree suf) :
    (suffix (some suf) (some str) = true ↔ suf <:+ str) ∧
    (strlen str < strlen suf → suffix (some suf) (some str) = false) ∧
    (strlen str < strlen suf →
      ptr_add str ((strlen str : Int) - (strlen suf : Int)) = none) ∧
    suffix_checked (some suf) (some str) = some (suffix (some suf) (some str)) ∧
    (∀ o : Option CStr, suffix none o = false ∧ suffix o none = false ∧
      suffix_checked none o = some false ∧ suffix_checked o none = some false) := by
  have hiff := suffix_iff suf hsuf str
  refine ⟨hiff, ?_, ?_, suffix_checked_eq _ _, ?_⟩
  · intro hlt
    apply bool_eq_false_of_not
    intro h
    have := (hiff.1 h).length_le
    simp only [strlen] at hlt
    omega
  · intro hlt
    simp only [strlen] at hlt
    have : ¬ (0 : Int) ≤ (str.length : Int) - (suf.length : Int) := by omega
    simp [ptr_add, strlen, this]
  · intro o
    cases o <;> exact ⟨rfl, rfl, rfl, rfl⟩

/-- C13 (witness): the suffix `/unbind` against the shorter string `bind`
and against the `unbind` attribute of `cdc_acm`. -/
theorem suffix_exact_witness :
    NulFree (lit "/unbind") ∧
    suffix (some (lit "/unbind")) (some (lit "bind")) = false ∧
    suffix_checked (some (lit "/unbind")) (some (lit "bind")) = some false ∧
    (suffix (some (lit "/unbind")) (some (lit "/sys/bus/usb/drivers/cdc_acm/unbind")) = true ↔
      lit "/unbind" <:+ lit "/sys/bus/usb/drivers/cdc_acm/unbind") :=
  have h := suffix_exact (lit "/unbind") (lit "bind") (by decide)
  have g := suffix_exact (lit "/unbind") (lit "/sys/bus/usb/drivers/cdc_acm/unbind") (by decide)
  ⟨by decide, h.2.1 (by decide), by decide, g.1⟩

/-! ## Order of the allow-list -/

theorem scan_perm (P : CStr) (l1 l2 : List CStr) (h : l1.Perm l2) :
    (scan P l1).1 = (scan P l2).1 := by
  rw [Bool.eq_iff_iff, scan_found, scan_found]
  constructor
  · rintro ⟨p, hp, hx⟩
    exact ⟨p, h.mem_iff.1 hp, hx⟩
  · rintro ⟨p, hp, hx⟩
    exact ⟨p, h.mem_iff.2 hp, hx⟩

/-- C14 (order-independence of the allow-list scan): the flag `found` left by
the first-match-wins loop equals "some allow-list entry is a byte prefix of
the path", and the loop run over any permutation of the three entries leaves
the same flag. -/
theorem allow_list_order_independent (P : CStr) (l : List CStr) (h : l.Perm paths) :
    ((scan P paths).1 = true ↔ ∃ D ∈ paths, D <+: P) ∧
    ((scan P paths).1 = false ↔ ∀ D ∈ paths, ¬ D <+: P) ∧
    (scan P l).1 = (scan P paths).1 := by
  refine ⟨scan_paths_iff P, ?_, scan_perm P l paths h⟩
  rw [← Bool.not_eq_true, scan_paths_iff]
  simp [UnderAllowed]

/-- C14 (witness): the allow-list in the order usbtest, uvcvideo, cdc_acm on a
path under the last entry of the source order. -/
theorem allow_list_order_independent_witness :
    (scan (lit "/sys/bus/usb/drivers/usbtest/unbind")
      [ lit "/sys/bus/usb/drivers/usbtest",
        lit "/sys/bus/usb/drivers/uvcvideo",
        lit "/sys/bus/usb/drivers/cdc_acm" ]).1
      = (scan (lit "/sys/bus/usb/drivers/usbtest/unbind") paths).1 ∧
    (scan (lit "/sys/bus/usb/drivers/usbtest/unbind")
      [ lit "/sys/bus/usb/drivers/usbtest",
        lit "/sys/bus/usb/drivers/uvcvideo",
        lit "/sys/bus/usb/drivers/cdc_acm" ]).2.length = 1 ∧
    (scan (lit "/sys/bus/usb/drivers/usbtest/unbind") paths).2.length = 3 :=
  have h := allow_list_order_independent (lit "/sys/bus/usb/drivers/usbtest/unbind")
    [ lit "/sys/bus/usb/drivers/usbtest",
      lit "/sys/bus/usb/drivers/uvcvideo",
      lit "/sys/bus/usb/drivers/cdc_acm" ] (by decide)
  ⟨h.2.2, by decide, by decide⟩

/-! ## Release of the file handle -/

theorem check_calls_not_fileop (P : CStr) : ∀ c ∈ check_calls P, c.isFileOp = false := by
  intro c hc
  rcases check_calls_mem P c hc with ⟨p, rfl⟩ | rfl <;> rfl

theorem scan_not_fileop (P : CStr) (l : List CStr) : ∀ c ∈ (scan P l).2, c.isFileOp = false := by
  intro c hc
  obtain ⟨p, rfl⟩ := scan_calls_check P l c hc
  rfl

theorem fileop_cases (env : Env) (argv : List CStr) :
    (∃ a0 raw payload P, argv = [a0, raw, payload] ∧
        env.canonicalize_file_name raw = some P ∧ (scan P paths).1 = true ∧
        suffix (some (lit "/unbind")) (some P) = true) ∨
    (∀ c ∈ (main env argv).calls, c.isFileOp = false) := by
  by_cases hlen : argv.length = 3
  · obtain ⟨a0, raw, payload, rfl⟩ := length_three argv hlen
    cases hc : env.canonicalize_file_name raw with
    | none =>
      right
      rw [main_null env a0 raw payload hc]
      intro c hmem
      simp only [List.mem_cons, List.mem_singleton, List.not_mem_nil, or_false] at hmem
      rcases hmem with rfl | rfl <;> rfl
    | some P =>
      by_cases hs : (scan P paths).1 = true
      · by_cases hx : suffix (some (lit "/unbind")) (some P) = true
        · exact Or.inl ⟨a0, raw, payload, P, rfl, hc, hs, hx⟩
        · right
          rw [main_bad_suffix env a0 raw payload P hc hs (bool_eq_false_of_not hx)]
          intro c hmem
          simp only [List.mem_append, List.mem_singleton] at hmem
          rcases hmem with (rfl | hmem) | rfl
          · rfl
          · exact check_calls_not_fileop P c hmem
          · rfl
      · right
        rw [main_not_under env a0 raw payload P hc (bool_eq_false_of_not hs)]
        intro c hmem
        simp only [List.mem_append, List.mem_singleton, List.mem_map] at hmem
        rcases hmem with ((rfl | hmem) | rfl) | ⟨p, _, rfl⟩
        · rfl
        · exact scan_not_fileop P paths c hmem
        · rfl
        · rfl
  · right
    rw [main_usage env argv hlen]
    intro c hmem
    simp only [List.mem_singleton] at hmem
    subst hmem
    rfl

/-- C15 (handle release on every path): either the run issues an `open`, and
then its calls are the validation calls, none of them on a file handle,
followed by `open`, `strlen`, `write`, `close` of the value `open` returned
(whatever that value is, `-1` included) and only then the `strlen` of the
written-count check, followed by nothing (return `0`) or by the failure
message (return `-1`); or the run issues no `open`, no `write` and no
`close`. -/
theorem handle_release (env : Env) (argv : List CStr) :
    ((∃ c ∈ (main env argv).calls, c.isOpen = true) ∧
      ∃ P pre post, env.canonicalize_file_name (argv.getD 1 []) = some P ∧
        (main env argv).calls =
          pre ++ [ Call.open_ P O_WRONLY,
                   Call.strlen (argv.getD 2 []),
                   Call.write (env.open_ P O_WRONLY) (argv.getD 2 []) (strlen (argv.getD 2 [])),
                   Call.close (env.open_ P O_WRONLY),
                   Call.strlen (argv.getD 2 []) ] ++ post ∧
        (∀ c ∈ pre, c.isFileOp = false) ∧
        ((post = [] ∧ (main env argv).ret = 0) ∨
          (post = [Call.printf (lit "Write to " ++ P ++ lit " failed\n")] ∧
            (main env argv).ret = -1)) ∧
        (main env argv).calls.filter Call.isFileOp =
          [ Call.open_ P O_WRONLY,
            Call.write (env.open_ P O_WRONLY) (argv.getD 2 []) (strlen (argv.getD 2 [])),
            Call.close (env.open_ P O_WRONLY) ]) ∨
    ((∀ c ∈ (main env argv).calls, c.isOpen = false) ∧
      (∀ c ∈ (main env argv).calls, c.isWrite = false) ∧
      (∀ c ∈ (main env argv).calls, c.isClose = false)) := by
  rcases fileop_cases env argv with ⟨a0, raw, payload, P, rfl, hc, hs, hx⟩ | hno
  · left
    refine ⟨⟨_, open_mem_write env a0 raw payload P hc hs hx, rfl⟩, P,
      [Call.canonicalize_file_name raw] ++ check_calls P, ?_⟩
    have hpre : ∀ c ∈ [Call.canonicalize_file_name raw] ++ check_calls P,
        c.isFileOp = false := by
      intro c hmem
      simp only [List.mem_append, List.mem_singleton] at hmem
      rcases hmem with rfl | hmem
      · rfl
      · exact check_calls_not_fileop P c hmem
    have hfil : ([Call.canonicalize_file_name raw] ++ check_calls P).filter Call.isFileOp = [] :=
      filter_eq_nil_of_forall _ _ hpre
    rw [main_write env a0 raw payload P hc hs hx]
    simp only [List.getD_cons_succ, List.getD_cons_zero]
    split
    · refine ⟨[Call.printf (lit "Write to " ++ P ++ lit " failed\n")], by simpa using hc,
        rfl, hpre, Or.inr ⟨rfl, rfl⟩, ?_⟩
      rw [List.filter_append, List.filter_append, hfil]
      rfl
    · refine ⟨[], by simpa using hc, by simp, hpre, Or.inl ⟨rfl, rfl⟩, ?_⟩
      rw [List.filter_append, hfil]
      rfl
  · right
    refine ⟨fun c hmem => ?_, fun c hmem => ?_, fun c hmem => ?_⟩ <;>
      · have := hno c hmem
        cases c <;> simp_all [Call.isFileOp, Call.isOpen, Call.isWrite, Call.isClose]

/-- C15 (witness): in `env_fail` the `open` returns `-1`; the handle calls of
the run are `open`, `write(-1, ..)`, `close(-1)`. -/
theorem handle_release_witness :
    (main env_fail [lit "unbind-helper", lit "/sys/bus/usb/drivers/usbtest/unbind",
        lit "2-1.3"]).calls.filter Call.isFileOp =
      [ Call.open_ (lit "/sys/bus/usb/drivers/usbtest/unbind") O_WRONLY,
        Call.write (-1) (lit "2-1.3") 5,
        Call.close (-1) ] ∧
    (main env_fail [lit "unbind-helper", lit "/sys/bus/usb/drivers/usbtest/unbind",
        lit "2-1.3"]).ret = -1 := by
  have hopen : ¬ ((∀ c ∈ (main env_fail [lit "unbind-helper",
        lit "/sys/bus/usb/drivers/usbtest/unbind", lit "2-1.3"]).calls, c.isOpen = false) ∧
      (∀ c ∈ (main env_fail [lit "unbind-helper",
        lit "/sys/bus/usb/drivers/usbtest/unbind", lit "2-1.3"]).calls, c.isWrite = false) ∧
      (∀ c ∈ (main env_fail [lit "unbind-helper",
        lit "/sys/bus/usb/drivers/usbtest/unbind", lit "2-1.3"]).calls, c.isClose = false)) := by
    decide
  obtain ⟨_, P, pre, post, hP, _, _, _, hfil⟩ :=
    (handle_release env_fail [lit "unbind-helper",
      lit "/sys/bus/usb/drivers/usbtest/unbind", lit "2-1.3"]).resolve_right hopen
  have hPeq : P = lit "/sys/bus/usb/drivers/usbtest/unbind" := by
    have h2 : env_fail.canonicalize_file_name
        ([lit "unbind-helper", lit "/sys/bus/usb/drivers/usbtest/unbind", lit "2-1.3"].getD 1 [])
        = some (lit "/sys/bus/usb/drivers/usbtest/unbind") := by decide
    rw [h2] at hP
    exact (Option.some.inj hP).symm
  subst hPeq
  exact ⟨hfil, by decide⟩

/-! ## Exact shape of the accepted set -/

theorem shape_of_entry (D : CStr) (hD : D ∈ paths) (P : CStr) (hp : D <+: P)
    (hE : lit "/unbind" <:+ P) : ∃ M, P = D ++ M ++ lit "/unbind" := by
  obtain ⟨t, rfl⟩ := hp
  obtain ⟨s, hs⟩ := hE
  rcases List.append_eq_append_iff.1 hs with ⟨a, hDa, hUa⟩ | ⟨c, hsc, htc⟩
  · have hpre : a <+: lit "/unbind" := ⟨t, hUa.symm⟩
    have htake : a = (lit "/unbind").take a.length := List.prefix_iff_eq_take.1 hpre
    have hlen : a.length ≤ 7 := hpre.length_le
    by_cases ha : a.length = 0
    · have : a = [] := List.length_eq_zero.1 ha
      subst this
      refine ⟨[], ?_⟩
      simp only [List.nil_append] at hUa
      simp [hUa]
    · exfalso
      have hsuf : a <:+ D := ⟨s, hDa.symm⟩
      rw [htake] at hsuf
      exact no_overlap D hD a.length (by omega) (by omega) hsuf
  · exact ⟨c, by simp [htc]⟩

theorem paths_length_ge : ∀ D ∈ paths, 28 ≤ D.length := by decide

/-- C16 (exact shape of the accepted set): a canonical path passes the
allow-list loop and the suffix test exactly when it is an allow-list entry,
then some (possibly empty) bytes, then "/unbind".  The matched entry and the
suffix do not overlap: an accepted path starting with the entry `D` has at
least `strlen(D) + 7` bytes, so no path of fewer than 35 bytes and no
allow-list directory itself is accepted. -/
theorem accepted_iff_shape (P : CStr) :
    (((scan P paths).1 = true ∧ suffix (some (lit "/unbind")) (some P) = true) ↔
      ∃ D ∈ paths, ∃ M, P = D ++ M ++ lit "/unbind") ∧
    (∀ D ∈ paths, D <+: P → suffix (some (lit "/unbind")) (some P) = true →
      strlen D + 7 ≤ strlen P) ∧
    (strlen P < 35 →
      ¬ ((scan P paths).1 = true ∧ suffix (some (lit "/unbind")) (some P) = true)) ∧
    (∀ D ∈ paths,
      ¬ ((scan D paths).1 = true ∧ suffix (some (lit "/unbind")) (some D) = true)) := by
  have hlenU : (lit "/unbind").length = 7 := by decide
  have hbound : ∀ Q : CStr, ∀ D ∈ paths, D <+: Q →
      suffix (some (lit "/unbind")) (some Q) = true → strlen D + 7 ≤ strlen Q := by
    intro Q D hD hp hx
    obtain ⟨M, rfl⟩ := shape_of_entry D hD Q hp ((suffix_unbind_iff Q).1 hx)
    simp only [strlen, List.length_append, hlenU]
    omega
  refine ⟨⟨?_, ?_⟩, hbound P, ?_, by decide⟩
  · rintro ⟨hs, hx⟩
    exact accepted_shape P ((scan_paths_iff P).1 hs) ((suffix_unbind_iff P).1 hx)
  · rintro ⟨D, hD, M, rfl⟩
    refine ⟨(scan_paths_iff _).2 ⟨D, hD, ⟨M ++ lit "/unbind", by simp⟩⟩, ?_⟩
    exact (suffix_unbind_iff _).2 ⟨D ++ M, rfl⟩
  · rintro hlt ⟨hs, hx⟩
    obtain ⟨D, hD, hp⟩ := (scan_paths_iff P).1 hs
    have h1 := hbound P D hD hp hx
    have h2 := paths_length_ge D hD
    simp only [strlen] at h1 hlt
    omega

end UnbindHelper
